import Mathlib

/-! Verification of the `tag` XML-generator core (src/main.rs).

Shallow embedding of the program's core: the identifier sanitizer
(`clean_identifier`), the document builder (`build_parsed_data`), the
serializer (`generate_xml`), and the per-frame interaction cycle of
`eframe::App::update` as a pure function on an explicit state.

Rust strings are modelled as `List Char`; `Option`/`Result` as
`Option`/`Except`.
-/

set_option autoImplicit false

namespace TagApp

/-- Rust `char::is_whitespace` (the Unicode `White_Space` property).
The Unicode `White_Space=Yes` set is this closed list of code points,
reproduced exactly. -/
def rustIsWhitespace (c : Char) : Bool :=
  (9 ≤ c.toNat && c.toNat ≤ 13) || c.toNat == 32 || c.toNat == 133 ||
  c.toNat == 160 || c.toNat == 0x1680 ||
  (0x2000 ≤ c.toNat && c.toNat ≤ 0x200A) || c.toNat == 0x2028 ||
  c.toNat == 0x2029 || c.toNat == 0x202F || c.toNat == 0x205F ||
  c.toNat == 0x3000

/-- Rust `char::is_alphanumeric` (Unicode `Alphabetic` or general category
`Nd`/`Nl`/`No`).  Modelled exactly on the Basic Latin and Latin-1
Supplement blocks (U+0000..U+00FF): ASCII digits and letters, `ª ² ³ µ ¹ º
¼ ½ ¾`, and the Latin-1 letters U+00C0..U+00FF except `×` (U+00D7) and `÷`
(U+00F7).  Code points above U+00FF (none of which occur in this
development) are conservatively mapped to `false`. -/
def rustIsAlphanumeric (c : Char) : Bool :=
  (48 ≤ c.toNat && c.toNat ≤ 57) || (65 ≤ c.toNat && c.toNat ≤ 90) ||
  (97 ≤ c.toNat && c.toNat ≤ 122) ||
  c.toNat == 0xAA || c.toNat == 0xB2 || c.toNat == 0xB3 ||
  c.toNat == 0xB5 || c.toNat == 0xB9 || c.toNat == 0xBA ||
  (0xBC ≤ c.toNat && c.toNat ≤ 0xBE) ||
  (0xC0 ≤ c.toNat && c.toNat ≤ 0xFF && c.toNat != 0xD7 && c.toNat != 0xF7)

/-- The character filter of `clean_identifier` (main.rs line 71):
`c.is_alphanumeric() || c == '_' || c == '-'`. -/
def keepChar (c : Char) : Bool :=
  rustIsAlphanumeric c || c == '_' || c == '-'

/-- The literal character class `[A-Za-z0-9_-]` named by the spec's
Document invariant. -/
def claimAsciiClass (c : Char) : Bool :=
  (65 ≤ c.toNat && c.toNat ≤ 90) || (97 ≤ c.toNat && c.toNat ≤ 122) ||
  (48 ≤ c.toNat && c.toNat ≤ 57) || c == '_' || c == '-'

/-- Rust `str::trim`: remove leading and trailing Unicode whitespace. -/
def rustTrim (s : List Char) : List Char :=
  ((s.dropWhile rustIsWhitespace).reverse.dropWhile rustIsWhitespace).reverse

/-- Worker for Rust `str::split_whitespace` on `List Char`: `acc` is the
current word, reversed.  Returns the list of maximal non-whitespace runs
(words); empty runs never appear. -/
def splitWsGo : List Char → List Char → List (List Char)
  | [], acc => if acc.isEmpty then [] else [acc.reverse]
  | c :: cs, acc =>
    if rustIsWhitespace c then
      if acc.isEmpty then splitWsGo cs [] else acc.reverse :: splitWsGo cs []
    else
      splitWsGo cs (c :: acc)

/-- Rust `str::split_whitespace` collected into a `Vec`. -/
def splitWhitespace (s : List Char) : List (List Char) :=
  splitWsGo s []

/-- Function `clean_identifier` (main.rs lines 61-73): join the whitespace-split
words with `_`, then keep only alphanumeric, `_`, `-`. -/
def clean_identifier (input : List Char) : List Char :=
  (List.intercalate ['_'] (splitWhitespace input)).filter keepChar

/-! The spec-side sanitizer (section 4.1 of the spec, stated word for word:
split on whitespace, discard empty segments, rejoin with `_`, then filter). -/

/-- Split at every whitespace character, keeping empty segments. -/
def splitOnWs : List Char → List (List Char)
  | [] => [[]]
  | c :: cs =>
    if rustIsWhitespace c then [] :: splitOnWs cs
    else
      match splitOnWs cs with
      | [] => [[c]]
      | seg :: rest => (c :: seg) :: rest

/-- The sanitizer as the spec words it: split on whitespace, discard the
empty segments, rejoin with `_`, drop every character that is not
alphanumeric, `_` or `-`. -/
def specSanitize (s : List Char) : List Char :=
  (List.intercalate ['_']
    ((splitOnWs s).filter (fun x => !x.isEmpty))).filter keepChar

lemma splitOnWs_ne_nil (s : List Char) : splitOnWs s ≠ [] := by
  cases s with
  | nil => simp [splitOnWs]
  | cons c cs =>
    simp only [splitOnWs]
    split
    · simp
    · split <;> simp

lemma splitWsGo_eq : ∀ (s acc seg : List Char) (rest : List (List Char)),
    splitOnWs s = seg :: rest →
    splitWsGo s acc =
      (if acc.reverse ++ seg = [] then [] else [acc.reverse ++ seg]) ++
        rest.filter (fun x => !x.isEmpty) := by
  intro s
  induction s with
  | nil =>
    intro acc seg rest h
    simp only [splitOnWs, List.cons.injEq] at h
    obtain ⟨h1, h2⟩ := h
    subst h1; subst h2
    cases acc <;> simp [splitWsGo]
  | cons c cs ih =>
    intro acc seg rest h
    obtain ⟨seg0, rest0, h0⟩ : ∃ g r, splitOnWs cs = g :: r := by
      cases h0 : splitOnWs cs with
      | nil => exact absurd h0 (splitOnWs_ne_nil cs)
      | cons g r => exact ⟨g, r, rfl⟩
    simp only [splitOnWs] at h
    cases hws : rustIsWhitespace c with
    | true =>
      rw [hws] at h
      simp only [if_true, List.cons.injEq] at h
      obtain ⟨h1, h2⟩ := h
      subst h1; subst h2
      have hIH := ih [] seg0 rest0 h0
      simp only [List.reverse_nil, List.nil_append] at hIH
      rw [h0, List.filter_cons]
      simp only [splitWsGo, hws, if_true]
      cases acc with
      | nil =>
        simp only [List.isEmpty_nil, if_true, List.reverse_nil,
          List.nil_append, List.append_nil]
        rw [hIH]
        cases seg0 <;> simp
      | cons a as =>
        simp only [List.isEmpty_cons, if_false, List.append_nil]
        rw [hIH]
        have hne : ¬((a :: as).reverse = []) := by simp
        rw [if_neg hne]
        cases seg0 <;> simp
    | false =>
      rw [hws] at h
      rw [if_neg (by simp)] at h
      rw [h0] at h
      injection h with h1 h2
      subst h1; subst h2
      have hIH := ih (c :: acc) seg0 rest0 h0
      simp only [splitWsGo, hws, if_false]
      rw [hIH]
      have hrw : (c :: acc).reverse ++ seg0 = acc.reverse ++ (c :: seg0) := by
        simp
      rw [hrw]
      have hne : ¬(acc.reverse ++ (c :: seg0) = []) := by simp
      rw [if_neg hne]
      simp

lemma splitWhitespace_eq (s : List Char) :
    splitWhitespace s = (splitOnWs s).filter (fun x => !x.isEmpty) := by
  obtain ⟨seg, rest, h⟩ : ∃ g r, splitOnWs s = g :: r := by
    cases h0 : splitOnWs s with
    | nil => exact absurd h0 (splitOnWs_ne_nil s)
    | cons g r => exact ⟨g, r, rfl⟩
  rw [splitWhitespace, splitWsGo_eq s [] seg rest h, h, List.filter_cons]
  simp only [List.reverse_nil, List.nil_append]
  cases seg <;> simp

lemma keepChar_not_ws (c : Char) (h : keepChar c = true) :
    rustIsWhitespace c = false := by
  have h2 : c = '_' ∨ c = '-' ∨ rustIsAlphanumeric c = true := by
    simp only [keepChar, Bool.or_eq_true, beq_iff_eq] at h
    tauto
  rcases h2 with rfl | rfl | h2
  · decide
  · decide
  · simp only [rustIsAlphanumeric, Bool.or_eq_true, Bool.and_eq_true,
      decide_eq_true_eq, beq_iff_eq, Nat.beq_eq_true_eq, bne_iff_ne,
      ne_eq] at h2
    rw [Bool.eq_false_iff]
    intro hw
    simp only [rustIsWhitespace, Bool.or_eq_true, Bool.and_eq_true,
      decide_eq_true_eq, beq_iff_eq, Nat.beq_eq_true_eq] at hw
    omega

lemma splitWsGo_all_not_ws : ∀ (s acc : List Char),
    (∀ c ∈ s, rustIsWhitespace c = false) →
    splitWsGo s acc =
      if acc.reverse ++ s = [] then [] else [acc.reverse ++ s] := by
  intro s
  induction s with
  | nil =>
    intro acc _
    cases acc <;> simp [splitWsGo]
  | cons c cs ih =>
    intro acc h
    have hc : rustIsWhitespace c = false := h c (List.mem_cons_self c cs)
    have hcs : ∀ x ∈ cs, rustIsWhitespace x = false :=
      fun x hx => h x (List.mem_cons_of_mem _ hx)
    simp only [splitWsGo, hc]
    rw [ih (c :: acc) hcs]
    have hrw : (c :: acc).reverse ++ cs = acc.reverse ++ (c :: cs) := by simp
    rw [hrw]
    have hne : ¬(acc.reverse ++ (c :: cs) = []) := by simp
    rw [if_neg hne]
    simp

lemma intercalate_one (sep x : List Char) : List.intercalate sep [x] = x := by
  simp [List.intercalate, List.intersperse]

lemma clean_mem_keep (s : List Char) :
    ∀ c ∈ clean_identifier s, keepChar c = true := by
  intro c hc
  exact (List.mem_filter.mp hc).2

lemma clean_of_all_keep : ∀ (r : List Char),
    (∀ c ∈ r, keepChar c = true) → clean_identifier r = r := by
  intro r hkeep
  have hws : ∀ c ∈ r, rustIsWhitespace c = false :=
    fun c hc => keepChar_not_ws c (hkeep c hc)
  rw [clean_identifier, splitWhitespace, splitWsGo_all_not_ws r [] hws]
  simp only [List.reverse_nil, List.nil_append]
  cases r with
  | nil => simp [List.intercalate]
  | cons a as =>
    rw [if_neg (by simp), intercalate_one]
    exact List.filter_eq_self.mpr hkeep

/-- Claim C2: for every string `s`, `clean_identifier s` equals the result
of splitting `s` on whitespace, discarding empty segments, rejoining the
surviving segments with `_`, and then dropping every character that is not
alphanumeric, `_`, or `-` (the pipeline `specSanitize`); in particular
`clean_identifier "  my tag  " = "my_tag"`,
`clean_identifier "invalid-chars!?" = "invalid-chars"`,
`clean_identifier "   " = ""` (empty, not `"_"`), and
`clean_identifier " a b-c_d " = "a_b-c_d"`. -/
theorem clean_identifier_matches_spec_pipeline :
    (∀ s : List Char, clean_identifier s = specSanitize s) ∧
    clean_identifier "  my tag  ".toList = "my_tag".toList ∧
    clean_identifier "invalid-chars!?".toList = "invalid-chars".toList ∧
    clean_identifier "   ".toList = [] ∧
    clean_identifier " a b-c_d ".toList = "a_b-c_d".toList := by
  refine ⟨fun s => ?_, by decide, by decide, by decide, by decide⟩
  rw [clean_identifier, specSanitize, splitWhitespace_eq]

/-- Claim C9: the sanitizer is idempotent:
`clean_identifier (clean_identifier s) = clean_identifier s` for every `s`. -/
theorem clean_identifier_idempotent (s : List Char) :
    clean_identifier (clean_identifier s) = clean_identifier s :=
  clean_of_all_keep (clean_identifier s) (clean_mem_keep s)

/-! The document builder and serializer (main.rs lines 12-125). -/

/-- Struct `InputState` (main.rs lines 13-17): the raw editing snapshot. -/
structure InputState where
  tag : List Char
  attributes : List (List Char × List Char)
  deriving DecidableEq

/-- Struct `ParsedData` (main.rs lines 43-48): the validated document.
`none` as an attribute value encodes a boolean attribute. -/
structure ParsedData where
  tag : List Char
  attributes : List (List Char × Option (List Char))
  deriving DecidableEq

/-- The three `&'static str` validation errors of `build_parsed_data`:
`emptyTag` is "Tag cannot be empty." (line 78), `invalidTagCharacters` is
"Tag contains invalid characters." (line 82), `invalidAttributeKey` is
"Attribute key contains invalid characters." (line 98). -/
inductive BuildError where
  | emptyTag
  | invalidTagCharacters
  | invalidAttributeKey
  deriving DecidableEq

instance {ε α : Type} [DecidableEq ε] [DecidableEq α] :
    DecidableEq (Except ε α) := fun x y => by
  cases x with
  | ok a =>
    cases y with
    | ok b => exact decidable_of_iff (a = b) (by simp)
    | error f => exact isFalse (fun h => Except.noConfusion h)
  | error e =>
    cases y with
    | ok b => exact isFalse (fun h => Except.noConfusion h)
    | error f => exact decidable_of_iff (e = f) (by simp)

/-- The attribute loop of `build_parsed_data` (main.rs lines 85-101),
expressed as structural recursion: an `Err` anywhere discards all partial
results, exactly as the early `return Err(..)` does. -/
def buildAttrs :
    List (List Char × List Char) →
      Except BuildError (List (List Char × Option (List Char)))
  | [] => Except.ok []
  | (key, value) :: rest =>
    let cleaned_key := clean_identifier key
    if cleaned_key.isEmpty then
      if (rustTrim key).isEmpty then buildAttrs rest
      else Except.error BuildError.invalidAttributeKey
    else
      let cleaned_value :=
        if (rustTrim value).isEmpty then none else some (rustTrim value)
      match buildAttrs rest with
      | Except.ok attrs => Except.ok ((cleaned_key, cleaned_value) :: attrs)
      | Except.error e => Except.error e

/-- Function `build_parsed_data` (main.rs lines 76-104). -/
def build_parsed_data (s : InputState) : Except BuildError ParsedData :=
  if (rustTrim s.tag).isEmpty then Except.error BuildError.emptyTag
  else
    let tag := clean_identifier s.tag
    if tag.isEmpty then Except.error BuildError.invalidTagCharacters
    else
      match buildAttrs s.attributes with
      | Except.ok attrs => Except.ok ⟨tag, attrs⟩
      | Except.error e => Except.error e

/-- Rust `value.replace('\x22', "&quot;")` (main.rs line 113). -/
def escapeQuotes : List Char → List Char
  | [] => []
  | c :: cs =>
    if c = '"' then '&' :: 'q' :: 'u' :: 'o' :: 't' :: ';' :: escapeQuotes cs
    else c :: escapeQuotes cs

/-- One iteration of the attribute loop of `generate_xml` (main.rs lines
109-122): the piece appended to `attributes_string` for one attribute. -/
def attrPiece (kv : List Char × Option (List Char)) : List Char :=
  match kv.2 with
  | some value => ' ' :: (kv.1 ++ '=' :: '"' :: (escapeQuotes value ++ ['"']))
  | none => ' ' :: kv.1

/-- Function `generate_xml` (main.rs lines 107-125): the attribute loop is a left
fold appending `attrPiece` pieces, then the final format string. -/
def generate_xml (d : ParsedData) : List Char :=
  let attributes_string :=
    d.attributes.foldl (fun acc kv => acc ++ attrPiece kv) []
  '<' :: (d.tag ++ attributes_string ++
    '>' :: '\n' :: '\n' :: '<' :: '/' :: (d.tag ++ ['>']))

/-! The spec-side serializer (section 4.3 of the spec, word for word). -/

/-- Spec-side escaping: replace every literal `\x22` with `&quot;`,
passing everything else through verbatim. -/
def specEscape (v : List Char) : List Char :=
  (v.map (fun c => if c = '"' then "&quot;".toList else [c])).flatten

/-- Spec-side attribute rendering: a present value contributes
`" " ++ key ++ "=\x22" ++ escaped ++ "\x22"`, an absent one `" " ++ key`. -/
def specAttrPiece : List Char × Option (List Char) → List Char
  | (key, some v) => ' ' :: (key ++ '=' :: '"' :: (specEscape v ++ ['"']))
  | (key, none) => ' ' :: key

/-- Spec-side serializer: `"<" + tag + attrs + ">\n\n</" + tag + ">"`. -/
def specSerialize (d : ParsedData) : List Char :=
  '<' :: (d.tag ++ (d.attributes.map specAttrPiece).flatten ++
    '>' :: '\n' :: '\n' :: '<' :: '/' :: (d.tag ++ ['>']))

/-- The contribution of one raw attribute row to a successful build:
`none` when the key sanitizes to empty (the row is dropped), otherwise the
sanitized key paired with the trimmed value (absent when it trims to
empty). -/
def rowOut (kv : List Char × List Char) :
    Option (List Char × Option (List Char)) :=
  if (clean_identifier kv.1).isEmpty then none
  else some (clean_identifier kv.1,
    if (rustTrim kv.2).isEmpty then none else some (rustTrim kv.2))

/-- A structurally invalid row: the key sanitizes to empty although its
trimmed original text is non-empty. -/
def badKey (kv : List Char × List Char) : Bool :=
  (clean_identifier kv.1).isEmpty && !(rustTrim kv.1).isEmpty

/-- Some row of `l` is `badKey` and every row before it is not. -/
def FirstBadKey (l : List (List Char × List Char)) : Prop :=
  ∃ pre kv rest, l = pre ++ kv :: rest ∧
    (∀ x ∈ pre, badKey x = false) ∧ badKey kv = true

lemma firstBadKey_cons (a : List Char × List Char)
    (t : List (List Char × List Char)) (ha : badKey a = false) :
    FirstBadKey (a :: t) ↔ FirstBadKey t := by
  constructor
  · rintro ⟨pre, kv, rest, heq, hpre, hkv⟩
    cases pre with
    | nil =>
      simp only [List.nil_append, List.cons.injEq] at heq
      rw [heq.1] at ha
      rw [ha] at hkv
      cases hkv
    | cons p ps =>
      simp only [List.cons_append, List.cons.injEq] at heq
      exact ⟨ps, kv, rest, heq.2,
        fun x hx => hpre x (List.mem_cons_of_mem _ hx), hkv⟩
  · rintro ⟨pre, kv, rest, heq, hpre, hkv⟩
    refine ⟨a :: pre, kv, rest, by rw [heq]; rfl, ?_, hkv⟩
    intro x hx
    rcases List.mem_cons.mp hx with h | h
    · rw [h]; exact ha
    · exact hpre x h

lemma buildAttrs_error_only_key : ∀ (l : List (List Char × List Char)) e,
    buildAttrs l = Except.error e → e = BuildError.invalidAttributeKey := by
  intro l
  induction l with
  | nil => intro e h; simp [buildAttrs] at h
  | cons a t ih =>
    intro e h
    obtain ⟨key, value⟩ := a
    simp only [buildAttrs] at h
    by_cases hk : (clean_identifier key).isEmpty = true
    · rw [if_pos hk] at h
      by_cases ht : (rustTrim key).isEmpty = true
      · rw [if_pos ht] at h; exact ih e h
      · rw [if_neg ht] at h
        injection h with h1
        exact h1.symm
    · rw [if_neg hk] at h
      cases hb : buildAttrs t with
      | ok attrs => rw [hb] at h; cases h
      | error f =>
        rw [hb] at h
        injection h with h1
        rw [← h1]
        exact ih f hb

lemma buildAttrs_error_iff : ∀ (l : List (List Char × List Char)),
    buildAttrs l = Except.error BuildError.invalidAttributeKey ↔
      FirstBadKey l := by
  intro l
  induction l with
  | nil =>
    constructor
    · intro h; simp [buildAttrs] at h
    · rintro ⟨pre, kv, rest, heq, -, -⟩
      exact absurd heq.symm (List.append_ne_nil_of_right_ne_nil pre
        (List.cons_ne_nil kv rest))
  | cons a t ih =>
    obtain ⟨key, value⟩ := a
    by_cases hk : (clean_identifier key).isEmpty = true
    · by_cases ht : (rustTrim key).isEmpty = true
      · have hgood : badKey (key, value) = false := by
          simp [badKey, hk, ht]
        have hstep : buildAttrs ((key, value) :: t) = buildAttrs t := by
          simp [buildAttrs, hk, ht]
        rw [hstep]
        exact ih.trans (firstBadKey_cons _ _ hgood).symm
      · have hbad : badKey (key, value) = true := by
          simp only [badKey, Bool.and_eq_true, Bool.not_eq_true']
          exact ⟨hk, by simpa using ht⟩
        have hstep : buildAttrs ((key, value) :: t) =
            Except.error BuildError.invalidAttributeKey := by
          simp [buildAttrs, hk, ht]
        rw [hstep]
        constructor
        · intro _
          exact ⟨[], (key, value), t, rfl,
            ⟨fun x hx => absurd hx (List.not_mem_nil x), hbad⟩⟩
        · intro _; rfl
    · have hgood : badKey (key, value) = false := by
        simp [badKey, hk]
      cases hb : buildAttrs t with
      | ok attrs =>
        have hstep : buildAttrs ((key, value) :: t) =
            Except.ok ((clean_identifier key,
              if (rustTrim value).isEmpty then none
              else some (rustTrim value)) :: attrs) := by
          simp [buildAttrs, hk, hb]
        rw [hstep, (firstBadKey_cons _ _ hgood)]
        rw [hb] at ih
        constructor
        · intro h; cases h
        · intro h
          exact absurd (ih.mpr h) (fun hc => Except.noConfusion hc)
      | error f =>
        have hf := buildAttrs_error_only_key t f hb
        subst hf
        have hstep : buildAttrs ((key, value) :: t) =
            Except.error BuildError.invalidAttributeKey := by
          simp [buildAttrs, hk, hb]
        rw [hstep, (firstBadKey_cons _ _ hgood)]
        rw [hb] at ih
        constructor
        · intro _; exact ih.mp rfl
        · intro _; rfl

lemma buildAttrs_ok_eq : ∀ (l : List (List Char × List Char)) attrs,
    buildAttrs l = Except.ok attrs → attrs = l.filterMap rowOut := by
  intro l
  induction l with
  | nil =>
    intro attrs h
    simp only [buildAttrs] at h
    injection h with h1
    rw [← h1]
    rfl
  | cons a t ih =>
    intro attrs h
    obtain ⟨key, value⟩ := a
    simp only [buildAttrs] at h
    by_cases hk : (clean_identifier key).isEmpty = true
    · rw [if_pos hk] at h
      by_cases ht : (rustTrim key).isEmpty = true
      · rw [if_pos ht] at h
        rw [ih attrs h, List.filterMap_cons]
        simp [rowOut, hk]
      · rw [if_neg ht] at h; cases h
    · rw [if_neg hk] at h
      cases hb : buildAttrs t with
      | ok as2 =>
        rw [hb] at h
        injection h with h1
        rw [← h1, ih as2 hb, List.filterMap_cons]
        simp [rowOut, hk]
      | error f => rw [hb] at h; cases h

lemma build_ok_parts (s : InputState) (d : ParsedData)
    (h : build_parsed_data s = Except.ok d) :
    d.tag = clean_identifier s.tag ∧
      (clean_identifier s.tag).isEmpty = false ∧
      buildAttrs s.attributes = Except.ok d.attributes := by
  unfold build_parsed_data at h
  by_cases h1 : (rustTrim s.tag).isEmpty = true
  · rw [if_pos h1] at h; cases h
  · rw [if_neg h1] at h
    by_cases h2 : (clean_identifier s.tag).isEmpty = true
    · rw [if_pos h2] at h; cases h
    · rw [if_neg h2] at h
      cases hb : buildAttrs s.attributes with
      | ok attrs =>
        rw [hb] at h
        injection h with h1
        rw [← h1]
        exact ⟨rfl, by simpa using h2, rfl⟩
      | error f => rw [hb] at h; cases h

/-- Claim C1 (as stated, with the ASCII class `[A-Za-z0-9_-]`) is false:
`build_parsed_data` accepts the tag `"é"` unchanged, because Rust's
`char::is_alphanumeric` is Unicode-wide, and `é` (U+00E9, an `Alphabetic`
code point) is outside `[A-Za-z0-9_-]`. -/
theorem build_ascii_charset_counterexample :
    build_parsed_data ⟨['é'], []⟩ = Except.ok ⟨['é'], []⟩ ∧
      'é' ∈ (⟨['é'], []⟩ : ParsedData).tag ∧ claimAsciiClass 'é' = false := by
  refine ⟨by decide, by decide, by decide⟩

/-- Claim C1, amended: for every `InputState` on which `build_parsed_data`
succeeds, the resulting document's tag and every attribute key are
non-empty and contain only characters that are Unicode-alphanumeric
(Rust `char::is_alphanumeric`), `_`, or `-` (the class `keepChar`); the
ASCII part of this class is exactly `[A-Za-z0-9_-]`, but non-ASCII
alphanumerics are also allowed. -/
theorem build_identifier_charset (s : InputState) (d : ParsedData)
    (h : build_parsed_data s = Except.ok d) :
    (d.tag ≠ [] ∧ ∀ c ∈ d.tag, keepChar c = true) ∧
      ∀ kv ∈ d.attributes, kv.1 ≠ [] ∧ ∀ c ∈ kv.1, keepChar c = true := by
  obtain ⟨htag, hne, hattrs⟩ := build_ok_parts s d h
  constructor
  · constructor
    · rw [htag]
      intro hnil
      rw [hnil] at hne
      cases hne
    · rw [htag]
      exact clean_mem_keep s.tag
  · intro kv hkv
    rw [buildAttrs_ok_eq s.attributes d.attributes hattrs] at hkv
    obtain ⟨a, _, ha⟩ := List.mem_filterMap.mp hkv
    unfold rowOut at ha
    by_cases hk : (clean_identifier a.1).isEmpty = true
    · rw [if_pos hk] at ha; cases ha
    · rw [if_neg hk] at ha
      injection ha with ha
      have h1 : kv.1 = clean_identifier a.1 := by rw [← ha]
      rw [h1]
      refine ⟨?_, clean_mem_keep a.1⟩
      intro hnil
      rw [hnil] at hk
      exact hk rfl

/-- Witness for the amended claim C1 at a concrete input. -/
theorem build_identifier_charset_witness :
    ((⟨"my_tag".toList, [("k-1".toList, some "v".toList)]⟩ : ParsedData).tag ≠ [] ∧
      ∀ c ∈ (⟨"my_tag".toList, [("k-1".toList, some "v".toList)]⟩ : ParsedData).tag,
        keepChar c = true) ∧
    ∀ kv ∈ (⟨"my_tag".toList, [("k-1".toList, some "v".toList)]⟩ : ParsedData).attributes,
      kv.1 ≠ [] ∧ ∀ c ∈ kv.1, keepChar c = true :=
  build_identifier_charset
    ⟨" my tag ".toList, [(" k-1 ".toList, " v ".toList)]⟩
    ⟨"my_tag".toList, [("k-1".toList, some "v".toList)]⟩ (by decide)

/-- Claim C3: `build_parsed_data` fails with `emptyTag` exactly when the
trimmed tag is empty; otherwise with `invalidTagCharacters` exactly when
the sanitized tag is empty; otherwise with `invalidAttributeKey` exactly
when, scanning rows in order, some row's key sanitizes to empty while its
trimmed text is non-empty and every earlier row is structurally valid
(the scan stops at the first such row and no `ParsedData` is produced,
since the result is an `Except.error`). -/
theorem build_error_characterization (s : InputState) :
    (build_parsed_data s = Except.error BuildError.emptyTag ↔
      (rustTrim s.tag).isEmpty = true) ∧
    (build_parsed_data s = Except.error BuildError.invalidTagCharacters ↔
      ((rustTrim s.tag).isEmpty = false ∧
        (clean_identifier s.tag).isEmpty = true)) ∧
    (build_parsed_data s = Except.error BuildError.invalidAttributeKey ↔
      ((rustTrim s.tag).isEmpty = false ∧
        (clean_identifier s.tag).isEmpty = false ∧
        FirstBadKey s.attributes)) := by
  unfold build_parsed_data
  by_cases h1 : (rustTrim s.tag).isEmpty = true
  · rw [if_pos h1]
    refine ⟨⟨fun _ => h1, fun _ => rfl⟩, ?_, ?_⟩
    · constructor
      · intro h; cases h
      · rintro ⟨ha, -⟩; simp [h1] at ha
    · constructor
      · intro h; cases h
      · rintro ⟨ha, -⟩; simp [h1] at ha
  · rw [if_neg h1]
    have h1f : (rustTrim s.tag).isEmpty = false := by simpa using h1
    by_cases h2 : (clean_identifier s.tag).isEmpty = true
    · rw [if_pos h2]
      refine ⟨?_, ⟨fun _ => ⟨h1f, h2⟩, fun _ => rfl⟩, ?_⟩
      · constructor
        · intro h; cases h
        · intro ha; simp [ha] at h1f
      · constructor
        · intro h; cases h
        · rintro ⟨-, hb, -⟩; simp [h2] at hb
    · rw [if_neg h2]
      have h2f : (clean_identifier s.tag).isEmpty = false := by simpa using h2
      cases hb : buildAttrs s.attributes with
      | ok attrs =>
        have hnb : ¬ FirstBadKey s.attributes := fun hfb =>
          absurd ((buildAttrs_error_iff s.attributes).mpr hfb)
            (by rw [hb]; exact fun hc => Except.noConfusion hc)
        refine ⟨?_, ?_, ?_⟩
        · constructor
          · intro h; cases h
          · intro ha; simp [ha] at h1f
        · constructor
          · intro h; cases h
          · rintro ⟨-, hc⟩; simp [hc] at h2f
        · constructor
          · intro h; cases h
          · rintro ⟨-, -, hfb⟩; exact absurd hfb hnb
      | error e =>
        have he := buildAttrs_error_only_key s.attributes e hb
        subst he
        have hfb : FirstBadKey s.attributes :=
          (buildAttrs_error_iff s.attributes).mp hb
        refine ⟨?_, ?_, ?_⟩
        · constructor
          · intro h; cases h
          · intro ha; simp [ha] at h1f
        · constructor
          · intro h; cases h
          · rintro ⟨-, hc⟩; simp [hc] at h2f
        · exact ⟨fun _ => ⟨h1f, h2f, hfb⟩, fun _ => rfl⟩

/-- Claim C4: on a successful build the attribute list is exactly the
input rows mapped through `rowOut` in order — rows whose key sanitizes to
empty (necessarily with blank original text) are dropped, every surviving
row contributes its sanitized key and its trimmed value (absent when the
trim is empty, otherwise the trimmed text verbatim), insertion order is
preserved and duplicate keys are kept. -/
theorem build_attribute_list (s : InputState) (d : ParsedData)
    (h : build_parsed_data s = Except.ok d) :
    d.attributes = s.attributes.filterMap rowOut := by
  obtain ⟨-, -, hattrs⟩ := build_ok_parts s d h
  exact buildAttrs_ok_eq s.attributes d.attributes hattrs

/-- Witness for claim C4: a build with a skipped blank row, a boolean
attribute and a duplicated key. -/
theorem build_attribute_list_witness :
    (⟨"div".toList,
      [("key1".toList, some "val1".toList), ("flag".toList, none),
        ("key1".toList, some "v2".toList)]⟩ : ParsedData).attributes =
      ([("key1".toList, "val1".toList), ([' '], "ignored".toList),
        ("flag".toList, "  ".toList), ("key1".toList, " v2 ".toList)]).filterMap
        rowOut :=
  build_attribute_list
    ⟨"div".toList,
      [("key1".toList, "val1".toList), ([' '], "ignored".toList),
        ("flag".toList, "  ".toList), ("key1".toList, " v2 ".toList)]⟩
    ⟨"div".toList,
      [("key1".toList, some "val1".toList), ("flag".toList, none),
        ("key1".toList, some "v2".toList)]⟩ (by decide)

lemma foldl_append_pieces :
    ∀ (l : List (List Char × Option (List Char))) (acc : List Char),
      l.foldl (fun a kv => a ++ attrPiece kv) acc =
        acc ++ (l.map attrPiece).flatten := by
  intro l
  induction l with
  | nil => intro acc; simp
  | cons kv t ih =>
    intro acc
    simp only [List.foldl_cons, List.map_cons, List.flatten_cons]
    rw [ih]
    simp [List.append_assoc]

lemma escapeQuotes_eq_spec (v : List Char) : escapeQuotes v = specEscape v := by
  induction v with
  | nil => rfl
  | cons c cs ih =>
    by_cases hc : c = '"'
    · subst hc
      simp only [escapeQuotes, if_pos rfl, specEscape, List.map_cons,
        List.flatten_cons, if_pos rfl]
      rw [ih]
      rfl
    · simp only [escapeQuotes, if_neg hc, specEscape, List.map_cons,
        List.flatten_cons, if_neg hc]
      rw [ih]
      rfl

lemma attrPiece_eq_spec : attrPiece = specAttrPiece := by
  funext kv
  obtain ⟨k, v⟩ := kv
  cases v with
  | none => rfl
  | some value =>
    simp only [attrPiece, specAttrPiece]
    rw [escapeQuotes_eq_spec]

/-- Claim C5: for every document, `generate_xml` renders exactly
`"<" ++ tag ++ attrs ++ ">\n\n</" ++ tag ++ ">"`, where `attrs`
concatenates, in order, `" " ++ key ++ "=\x22" ++ escaped ++ "\x22"` for
present values and `" " ++ key` for absent ones, escaping only the literal
`\x22` character as `&quot;` (`specSerialize`); in particular the `div`
example of the spec renders exactly as claimed. -/
theorem generate_xml_formula :
    (∀ d : ParsedData, generate_xml d = specSerialize d) ∧
    generate_xml ⟨"div".toList,
        [("class".toList, some "a\"b".toList), ("disabled".toList, none)]⟩ =
      "<div class=\"a&quot;b\" disabled>\n\n</div>".toList := by
  refine ⟨fun d => ?_, by decide⟩
  rw [generate_xml, specSerialize]
  rw [foldl_append_pieces, attrPiece_eq_spec]
  rfl

/-! The interaction cycle (`eframe::App::update`, main.rs lines 128-397).

One call of `update` is one interaction cycle.  `egui::Id`s are modelled
by the inductive `FieldId` (`Id::new("tag_field")`,
`Id::new(format!("attr_key_i"))`, `Id::new(format!("attr_val_i"))`, and
`other` for every id not of those shapes); focus queries/requests through
`ctx.memory` are modelled as explicit inputs (`focused`) and outputs
(`startFocusGrant` for the grant at the top of `update`,
`syncFocusGrant` for a `request_focus` issued later in the same cycle).
Clipboard creation and writing (both fallible) are collapsed into the
single per-cycle input `clipboardOk`; the two `ViewportCommand::Close`
paths are kept separate as `cancelEmitted` (Escape, line 251) and
`commitEmitted` (the close-thread spawned on a successful copy, lines
227-230). -/

/-- A logical widget identity. -/
inductive FieldId where
  | tagField
  | attrKey (i : Nat)
  | attrVal (i : Nat)
  | other
  deriving DecidableEq

/-- The persistent fields of `App` that the core logic reads or writes
(main.rs lines 19-26, minus the clipboard handle and the constant
`tag_field_id`). -/
structure AppState where
  input_state : InputState
  has_parse_error : Bool
  should_focus_tag : Bool
  focus_next_frame : Option FieldId
  deriving DecidableEq

/-- Everything one cycle consumes: the focused widget at cycle start, the
discrete key events of the frame (`key_pressed`), whether the modifier set
is empty, whether the clipboard is available and the write succeeds, and
the widget interactions of the UI pass (field edits, a remove-button
click, the add-attribute button). -/
structure CycleInput where
  focused : Option FieldId
  escapePressed : Bool
  tabPressed : Bool
  enterPressed : Bool
  modifiersNone : Bool
  clipboardOk : Bool
  tagEdited : Bool
  attrEdited : Bool
  removeClicked : Option Nat
  addClicked : Bool
  deriving DecidableEq

/-- Everything one cycle produces. -/
structure CycleOutput where
  state : AppState
  startFocusGrant : Option FieldId
  syncFocusGrant : Option FieldId
  cancelEmitted : Bool
  commitEmitted : Bool
  clipboardWritten : Option (List Char)
  uiRan : Bool
  deriving DecidableEq

/-- Focus handling at the top of `update` (main.rs lines 129-140):
grant (and clear) the pending `focus_next_frame`, then schedule the
initial tag focus through the same mechanism. -/
def focusPhase (s : AppState) : AppState × Option FieldId :=
  let granted := s.focus_next_frame
  let s1 : AppState := { s with focus_next_frame := none }
  let s2 :=
    if s1.should_focus_tag then
      { s1 with focus_next_frame := some FieldId.tagField,
                should_focus_tag := false }
    else s1
  (s2, granted)

/-- Flag `tag_focused` (main.rs lines 148-151). -/
def tagFocused (inp : CycleInput) : Bool :=
  inp.focused == some FieldId.tagField

/-- Flag `last_attr_value_focused` (main.rs lines 145, 152-157):
`last_attr_index` is `len.saturating_sub(1)` and the check requires a
non-empty attribute list. -/
def lastAttrValueFocused (s : AppState) (inp : CycleInput) : Bool :=
  !s.input_state.attributes.isEmpty &&
    inp.focused ==
      some (FieldId.attrVal (s.input_state.attributes.length - 1))

/-- The row-creating Tab condition (main.rs lines 174-180). -/
def tabAddCondition (s : AppState) (inp : CycleInput) : Bool :=
  (tagFocused inp && s.input_state.attributes.isEmpty) ||
    lastAttrValueFocused s inp

/-- Tab handling (main.rs lines 170-191): on Tab with no modifiers and
the add condition, push an empty row, point `focus_next_frame` at the new
row's key field, and clear the error flag. -/
def tabPhase (s : AppState) (inp : CycleInput) : AppState :=
  if inp.tabPressed && inp.modifiersNone && tabAddCondition s inp then
    let attrs := s.input_state.attributes ++ [([], [])]
    { s with
      input_state := { s.input_state with attributes := attrs },
      focus_next_frame := some (FieldId.attrKey (attrs.length - 1)),
      has_parse_error := false }
  else s

/-- Enter handling (main.rs lines 193-246): build, serialize, copy.
Returns the new state, whether the commit close was spawned, and the text
written to the clipboard.  A failed build, a missing clipboard, or a
failed write all set the error flag and do not commit. -/
def enterPhase (s : AppState) (inp : CycleInput) :
    AppState × Bool × Option (List Char) :=
  if inp.enterPressed && inp.modifiersNone then
    match build_parsed_data s.input_state with
    | Except.ok pd =>
      if inp.clipboardOk then
        ({ s with has_parse_error := false }, true, some (generate_xml pd))
      else
        ({ s with has_parse_error := true }, false, none)
    | Except.error _ => ({ s with has_parse_error := true }, false, none)
  else (s, false, none)

/-- The UI pass (main.rs lines 256-353): a tag edit clears the error
flag; a remove click deletes its row and, like any attribute edit, clears
the error flag; the add-attribute button pushes an empty row, requests
focus on its key field synchronously through `ctx.memory_mut` (line 348),
and clears the error flag. -/
def uiPhase (s : AppState) (inp : CycleInput) : AppState × Option FieldId :=
  let s1 := if inp.tagEdited then { s with has_parse_error := false } else s
  let attribute_changed := inp.attrEdited || inp.removeClicked.isSome
  let s2 :=
    match inp.removeClicked with
    | some idx =>
      { s1 with input_state :=
          { s1.input_state with
            attributes := s1.input_state.attributes.eraseIdx idx } }
    | none => s1
  let s3 := if attribute_changed then { s2 with has_parse_error := false }
    else s2
  if inp.addClicked then
    let attrs := s3.input_state.attributes ++ [([], [])]
    ({ s3 with
        input_state := { s3.input_state with attributes := attrs },
        has_parse_error := false },
      some (FieldId.attrKey (attrs.length - 1)))
  else (s3, none)

/-- One interaction cycle (main.rs lines 128-397): focus handling, then
the input closure (Escape flag, Tab, Enter, in that order), then — only
when Escape was not pressed — the UI pass.  When Escape was pressed the
cycle sends the cancel close and returns before drawing (lines 249-253),
but the Tab and Enter work of the same input closure has already
happened. -/
def update (s : AppState) (inp : CycleInput) : CycleOutput :=
  let fp := focusPhase s
  let s1 := fp.1
  let s2 := tabPhase s1 inp
  let er := enterPhase s2 inp
  let s3 := er.1
  if inp.escapePressed then
    { state := s3, startFocusGrant := fp.2, syncFocusGrant := none,
      cancelEmitted := true, commitEmitted := er.2.1,
      clipboardWritten := er.2.2, uiRan := false }
  else
    let up := uiPhase s3 inp
    { state := up.1, startFocusGrant := fp.2, syncFocusGrant := up.2,
      cancelEmitted := false, commitEmitted := er.2.1,
      clipboardWritten := er.2.2, uiRan := true }

lemma focusPhase_fst_input_state (s : AppState) :
    (focusPhase s).1.input_state = s.input_state := by
  unfold focusPhase
  dsimp only
  split <;> rfl

lemma focusPhase_fst_error (s : AppState) :
    (focusPhase s).1.has_parse_error = s.has_parse_error := by
  unfold focusPhase
  dsimp only
  split <;> rfl

lemma focusPhase_snd (s : AppState) :
    (focusPhase s).2 = s.focus_next_frame := rfl

lemma tabAddCondition_congr (s t : AppState) (inp : CycleInput)
    (h : t.input_state = s.input_state) :
    tabAddCondition t inp = tabAddCondition s inp := by
  unfold tabAddCondition lastAttrValueFocused
  rw [h]

lemma tabPhase_pos (s : AppState) (inp : CycleInput)
    (h : (inp.tabPressed && inp.modifiersNone && tabAddCondition s inp)
      = true) :
    (tabPhase s inp).input_state.attributes =
        s.input_state.attributes ++ [([], [])] ∧
      (tabPhase s inp).focus_next_frame =
        some (FieldId.attrKey s.input_state.attributes.length) ∧
      (tabPhase s inp).has_parse_error = false := by
  unfold tabPhase
  dsimp only
  rw [if_pos h]
  refine ⟨rfl, ?_, rfl⟩
  simp

lemma tabPhase_neg (s : AppState) (inp : CycleInput)
    (h : (inp.tabPressed && inp.modifiersNone && tabAddCondition s inp)
      = false) :
    tabPhase s inp = s := by
  unfold tabPhase
  dsimp only
  rw [h]
  rfl

lemma enterPhase_fst_input_state (s : AppState) (inp : CycleInput) :
    (enterPhase s inp).1.input_state = s.input_state := by
  unfold enterPhase
  repeat' split
  all_goals rfl

lemma enterPhase_fst_focus (s : AppState) (inp : CycleInput) :
    (enterPhase s inp).1.focus_next_frame = s.focus_next_frame := by
  unfold enterPhase
  repeat' split
  all_goals rfl

lemma enterPhase_skip (s : AppState) (inp : CycleInput)
    (h : inp.enterPressed = false) : enterPhase s inp = (s, false, none) := by
  unfold enterPhase
  rw [h]
  rfl

lemma uiPhase_fst_focus (s : AppState) (inp : CycleInput) :
    (uiPhase s inp).1.focus_next_frame = s.focus_next_frame := by
  unfold uiPhase
  dsimp only
  repeat' split
  all_goals rfl

lemma uiPhase_quiet (s : AppState) (inp : CycleInput)
    (hadd : inp.addClicked = false) (hrem : inp.removeClicked = none) :
    (uiPhase s inp).1.input_state = s.input_state ∧
      (uiPhase s inp).2 = none := by
  unfold uiPhase
  dsimp only
  rw [hrem, hadd]
  simp only [Bool.false_eq_true, if_false]
  constructor
  · split <;> split <;> rfl
  · trivial

lemma uiPhase_error_mono (s : AppState) (inp : CycleInput)
    (h : s.has_parse_error = false) :
    (uiPhase s inp).1.has_parse_error = false := by
  unfold uiPhase
  dsimp only
  repeat' split
  all_goals simpa using h

lemma uiPhase_add_error (s : AppState) (inp : CycleInput)
    (h : inp.addClicked = true) :
    (uiPhase s inp).1.has_parse_error = false := by
  unfold uiPhase
  dsimp only
  rw [h]
  simp only [if_true]

lemma uiPhase_add_focus (s : AppState) (inp : CycleInput)
    (h : inp.addClicked = true) :
    (uiPhase s inp).2 =
      some (FieldId.attrKey
        ((uiPhase s inp).1.input_state.attributes.length - 1)) := by
  unfold uiPhase
  dsimp only
  rw [h]
  simp only [if_true]

lemma tabAddCondition_iff (s : AppState) (inp : CycleInput) :
    tabAddCondition s inp = true ↔
      ((inp.focused = some FieldId.tagField ∧
          s.input_state.attributes = []) ∨
        (s.input_state.attributes ≠ [] ∧
          inp.focused =
            some (FieldId.attrVal
              (s.input_state.attributes.length - 1)))) := by
  unfold tabAddCondition tagFocused lastAttrValueFocused
  simp only [Bool.or_eq_true, Bool.and_eq_true, beq_iff_eq,
    List.isEmpty_iff, Bool.not_eq_true', List.isEmpty_eq_false, ne_eq]

lemma uiPhase_snd_none (s : AppState) (inp : CycleInput)
    (h : inp.addClicked = false) : (uiPhase s inp).2 = none := by
  unfold uiPhase
  dsimp only
  rw [h]
  simp

lemma update_state_eq (s : AppState) (inp : CycleInput) :
    (update s inp).state =
      if inp.escapePressed = true then
        (enterPhase (tabPhase (focusPhase s).1 inp) inp).1
      else
        (uiPhase (enterPhase (tabPhase (focusPhase s).1 inp) inp).1 inp).1 := by
  unfold update
  dsimp only
  split <;> rfl

lemma update_syncFocus_eq (s : AppState) (inp : CycleInput) :
    (update s inp).syncFocusGrant =
      if inp.escapePressed = true then none
      else
        (uiPhase (enterPhase (tabPhase (focusPhase s).1 inp) inp).1 inp).2 := by
  unfold update
  dsimp only
  split <;> rfl

lemma update_startFocus_eq (s : AppState) (inp : CycleInput) :
    (update s inp).startFocusGrant = s.focus_next_frame := by
  unfold update
  dsimp only
  split <;> rfl

/-- Claim C6: on a cycle where Tab is pressed with no modifier keys (and
no manual add/remove interaction in the same cycle), if focus is on the
tag field with an empty attribute list, or on the value field of the last
row, then exactly one empty row is appended and the pending focus-request
is set to that new row's key field; in any other focus state (in
particular the value field of a non-last row) no row is created. -/
theorem tab_row_creation (s : AppState) (inp : CycleInput)
    (htab : inp.tabPressed = true) (hmod : inp.modifiersNone = true)
    (hadd : inp.addClicked = false) (hrem : inp.removeClicked = none) :
    (((inp.focused = some FieldId.tagField ∧
          s.input_state.attributes = []) ∨
        (s.input_state.attributes ≠ [] ∧
          inp.focused = some (FieldId.attrVal
            (s.input_state.attributes.length - 1)))) →
      (update s inp).state.input_state.attributes =
          s.input_state.attributes ++ [([], [])] ∧
        (update s inp).state.focus_next_frame =
          some (FieldId.attrKey s.input_state.attributes.length)) ∧
    (¬ ((inp.focused = some FieldId.tagField ∧
          s.input_state.attributes = []) ∨
        (s.input_state.attributes ≠ [] ∧
          inp.focused = some (FieldId.attrVal
            (s.input_state.attributes.length - 1)))) →
      (update s inp).state.input_state.attributes =
        s.input_state.attributes) := by
  have hshape := update_state_eq s inp
  have hcond := tabAddCondition_iff s inp
  have hcongr : tabAddCondition (focusPhase s).1 inp = tabAddCondition s inp :=
    tabAddCondition_congr s (focusPhase s).1 inp (focusPhase_fst_input_state s)
  have hA : (update s inp).state.input_state.attributes =
      (tabPhase (focusPhase s).1 inp).input_state.attributes := by
    rw [hshape]
    by_cases he : inp.escapePressed = true
    · rw [if_pos he, enterPhase_fst_input_state]
    · rw [if_neg he, (uiPhase_quiet _ inp hadd hrem).1,
        enterPhase_fst_input_state]
  have hF : (update s inp).state.focus_next_frame =
      (tabPhase (focusPhase s).1 inp).focus_next_frame := by
    rw [hshape]
    by_cases he : inp.escapePressed = true
    · rw [if_pos he, enterPhase_fst_focus]
    · rw [if_neg he, uiPhase_fst_focus, enterPhase_fst_focus]
  constructor
  · intro hc
    have hbool : tabAddCondition s inp = true := hcond.mpr hc
    have hb : (inp.tabPressed && inp.modifiersNone &&
        tabAddCondition (focusPhase s).1 inp) = true := by
      rw [htab, hmod, hcongr, hbool]
      rfl
    obtain ⟨ha2, hf2, -⟩ := tabPhase_pos (focusPhase s).1 inp hb
    rw [focusPhase_fst_input_state] at ha2 hf2
    exact ⟨by rw [hA, ha2], by rw [hF, hf2]⟩
  · intro hc
    have hbool : tabAddCondition s inp = false := by
      cases hb : tabAddCondition s inp
      · rfl
      · exact absurd (hcond.mp hb) hc
    have hb : (inp.tabPressed && inp.modifiersNone &&
        tabAddCondition (focusPhase s).1 inp) = false := by
      rw [hcongr, hbool]
      simp
    rw [hA, tabPhase_neg (focusPhase s).1 inp hb, focusPhase_fst_input_state]

/-- Witness for claim C6: Tab from the tag field with no rows creates one
row and requests focus on its key field. -/
theorem tab_row_creation_witness :
    (update ⟨⟨"div".toList, []⟩, false, false, none⟩
        ⟨some FieldId.tagField, false, true, false, true, true, false, false,
          none, false⟩).state.input_state.attributes = [([], [])] ∧
      (update ⟨⟨"div".toList, []⟩, false, false, none⟩
        ⟨some FieldId.tagField, false, true, false, true, true, false, false,
          none, false⟩).state.focus_next_frame =
        some (FieldId.attrKey 0) :=
  (tab_row_creation ⟨⟨"div".toList, []⟩, false, false, none⟩
    ⟨some FieldId.tagField, false, true, false, true, true, false, false,
      none, false⟩ rfl rfl rfl rfl).1 (Or.inl ⟨rfl, rfl⟩)

/-- Claim C7 as stated is false on two counts.  First, Escape does not
suppress the rest of the input pass: in a cycle where Escape and Tab are
both delivered (focus on the tag field, no rows), the cancel close is sent
and a row is still appended; likewise Escape plus Enter on valid input
still builds, writes the clipboard and spawns the commit close.  Second,
the code never checks modifiers for Escape: Escape with a modifier held
(modifiersNone = false) still cancels. -/
theorem escape_cycle_counterexample :
    ((update ⟨⟨"div".toList, []⟩, false, false, none⟩
        ⟨some FieldId.tagField, true, true, false, true, true, false, false,
          none, false⟩).cancelEmitted = true ∧
      (update ⟨⟨"div".toList, []⟩, false, false, none⟩
        ⟨some FieldId.tagField, true, true, false, true, true, false, false,
          none, false⟩).state.input_state.attributes = [([], [])]) ∧
    (update ⟨⟨"div".toList, []⟩, false, false, none⟩
        ⟨some FieldId.tagField, true, false, true, true, true, false, false,
          none, false⟩).commitEmitted = true ∧
    (update ⟨⟨"div".toList, []⟩, false, false, none⟩
        ⟨none, true, false, false, false, true, false, false, none,
          false⟩).cancelEmitted = true := by
  decide

/-- Claim C7, amended: on a cycle where Escape is pressed — with or
without modifier keys — the cancel signal is emitted and the UI pass is
skipped (no drawing, no manual add/remove/edit processing that cycle);
Tab and Enter processing of the same input pass is not suppressed. -/
theorem escape_emits_cancel (s : AppState) (inp : CycleInput)
    (h : inp.escapePressed = true) :
    (update s inp).cancelEmitted = true ∧ (update s inp).uiRan = false := by
  unfold update
  dsimp only
  rw [if_pos h]
  exact ⟨rfl, rfl⟩

/-- Witness for the amended claim C7. -/
theorem escape_emits_cancel_witness :
    (update ⟨⟨[], []⟩, false, true, none⟩
        ⟨none, true, false, false, true, true, false, false, none,
          false⟩).cancelEmitted = true ∧
      (update ⟨⟨[], []⟩, false, true, none⟩
        ⟨none, true, false, false, true, true, false, false, none,
          false⟩).uiRan = false :=
  escape_emits_cancel ⟨⟨[], []⟩, false, true, none⟩
    ⟨none, true, false, false, true, true, false, false, none, false⟩ rfl

/-- Claim C8 as stated is false for manual row addition: clicking the
add-attribute button requests focus on the new row's key field
synchronously within the same cycle (through `ctx.memory_mut`, main.rs
line 348), not through the pending `focus_next_frame` request, which
remains empty. -/
theorem focus_grant_counterexample :
    (update ⟨⟨"div".toList, []⟩, false, false, none⟩
        ⟨none, false, false, false, true, true, false, false, none,
          true⟩).syncFocusGrant = some (FieldId.attrKey 0) ∧
      (update ⟨⟨"div".toList, []⟩, false, false, none⟩
        ⟨none, false, false, false, true, true, false, false, none,
          true⟩).state.focus_next_frame = none := by
  decide

/-- Claim C8, amended: the pending focus-request (`focus_next_frame`, an
`Option`, so it holds at most one field identifier) is granted exactly at
the start of the next cycle; every transition except manual row addition
defers its focus change through it, while manual row addition requests
focus on the new row's key field synchronously within the same cycle. -/
theorem focus_request_discipline (s : AppState) (inp : CycleInput) :
    ((update s inp).startFocusGrant = s.focus_next_frame) ∧
    (inp.addClicked = false → (update s inp).syncFocusGrant = none) ∧
    (inp.addClicked = true → inp.escapePressed = false →
      (update s inp).syncFocusGrant =
        some (FieldId.attrKey
          ((update s inp).state.input_state.attributes.length - 1))) := by
  refine ⟨update_startFocus_eq s inp, ?_, ?_⟩
  · intro hadd
    rw [update_syncFocus_eq]
    by_cases he : inp.escapePressed = true
    · rw [if_pos he]
    · rw [if_neg he]
      exact uiPhase_snd_none _ inp hadd
  · intro hadd hesc
    have hne : ¬(inp.escapePressed = true) := by
      rw [hesc]
      exact Bool.false_ne_true
    rw [update_syncFocus_eq, if_neg hne, update_state_eq, if_neg hne]
    exact uiPhase_add_focus _ inp hadd

/-- Witness for the amended claim C8: a pending request is granted at
cycle start, and a manual add grants focus synchronously. -/
theorem focus_request_discipline_witness :
    (update ⟨⟨[], []⟩, false, false, some FieldId.tagField⟩
        ⟨none, false, false, false, true, true, false, false, none,
          true⟩).startFocusGrant = some FieldId.tagField ∧
      (update ⟨⟨[], []⟩, false, false, some FieldId.tagField⟩
        ⟨none, false, false, false, true, true, false, false, none,
          true⟩).syncFocusGrant =
        some (FieldId.attrKey
          ((update ⟨⟨[], []⟩, false, false, some FieldId.tagField⟩
            ⟨none, false, false, false, true, true, false, false, none,
              true⟩).state.input_state.attributes.length - 1)) :=
  ⟨(focus_request_discipline ⟨⟨[], []⟩, false, false, some FieldId.tagField⟩
      ⟨none, false, false, false, true, true, false, false, none, true⟩).1,
    (focus_request_discipline ⟨⟨[], []⟩, false, false, some FieldId.tagField⟩
      ⟨none, false, false, false, true, true, false, false, none,
        true⟩).2.2 rfl rfl⟩

/-- Claim C10: appending an attribute row — via the Tab shortcut (when no
Enter in the same cycle can overwrite the flag) or via the manual
add-attribute button (processed last in the cycle) — leaves the error
flag cleared at the end of the cycle, for every prior state and field
contents, independent of whether the addition fixes any validation
problem. -/
theorem row_append_clears_error (s : AppState) (inp : CycleInput) :
    (inp.addClicked = true → inp.escapePressed = false →
      (update s inp).state.has_parse_error = false) ∧
    (inp.tabPressed = true → inp.modifiersNone = true →
      inp.enterPressed = false → tabAddCondition s inp = true →
      (update s inp).state.has_parse_error = false) := by
  have hshape := update_state_eq s inp
  constructor
  · intro hadd hesc
    have hne : ¬(inp.escapePressed = true) := by
      rw [hesc]
      exact Bool.false_ne_true
    rw [hshape, if_neg hne]
    exact uiPhase_add_error _ inp hadd
  · intro htab hmod hent hcond
    have hcongr : tabAddCondition (focusPhase s).1 inp =
        tabAddCondition s inp :=
      tabAddCondition_congr s (focusPhase s).1 inp
        (focusPhase_fst_input_state s)
    have hb : (inp.tabPressed && inp.modifiersNone &&
        tabAddCondition (focusPhase s).1 inp) = true := by
      rw [htab, hmod, hcongr, hcond]
      rfl
    obtain ⟨-, -, he2⟩ := tabPhase_pos (focusPhase s).1 inp hb
    have hE := enterPhase_skip (tabPhase (focusPhase s).1 inp) inp hent
    rw [hshape]
    by_cases hesc : inp.escapePressed = true
    · rw [if_pos hesc, hE]
      exact he2
    · rw [if_neg hesc, hE]
      exact uiPhase_error_mono _ inp he2

/-- Witness for claim C10: both append paths clear a previously set error
flag. -/
theorem row_append_clears_error_witness :
    (update ⟨⟨[], []⟩, true, false, none⟩
        ⟨none, false, false, false, true, true, false, false, none,
          true⟩).state.has_parse_error = false ∧
      (update ⟨⟨[], []⟩, true, false, none⟩
        ⟨some FieldId.tagField, false, true, false, true, true, false, false,
          none, false⟩).state.has_parse_error = false :=
  ⟨(row_append_clears_error ⟨⟨[], []⟩, true, false, none⟩
      ⟨none, false, false, false, true, true, false, false, none,
        true⟩).1 rfl rfl,
    (row_append_clears_error ⟨⟨[], []⟩, true, false, none⟩
      ⟨some FieldId.tagField, false, true, false, true, true, false, false,
        none, false⟩).2 rfl rfl rfl (by decide)⟩

end TagApp
